import Mathlib

/-!
Shallow embedding of `ql/Volatilities/blackvariancecurve.hpp`
(class `QuantLib::VolTermStructures::BlackVarianceCurve<Interpolator1D>`).

Modelling choices:
* `Date` is a serial day number, modelled as `ℤ`; `Date` comparison is the
  integer order.
* `Time` and `double` are modelled as `ℚ` (exact arithmetic; the spec's
  "up to floating point" tolerances become exact equalities).
* The day counter collaborator `dayCounter.yearFraction(referenceDate, d)`
  is an arbitrary function `ℤ → ℤ → ℚ`.
* The pluggable template parameter `Interpolator1D` is an arbitrary
  constructor function `Interp`: given the time and variance arrays it
  yields the point-evaluation function `(x : ℚ) → (extrapolate : Bool) → ℚ`,
  modelling `Interpolator1D(times_.begin(), times_.end(), variances_.begin())`
  followed by `operator()(x, extrapolate)`.
* A failed `QL_REQUIRE` throws; the throw sites are mapped to the error
  kinds named by the specification (`invalidInput` for the three
  constructor checks, `domainError` for the negative-time check,
  `extrapolationError` for the region-C check).
* `std::vector::back()` / `operator[]` on an empty vector is C++ undefined
  behavior; it is modelled as the distinct outcome `undefinedBehavior`,
  so that it is visibly neither a success nor a documented error.
-/

namespace QuantLib

/-- Error kinds of the component, as named by the specification, plus a
distinct marker for C++ undefined behavior (out-of-range vector access). -/
inductive Err where
  | invalidInput
  | domainError
  | extrapolationError
  | undefinedBehavior
deriving DecidableEq, Repr

/-- The pluggable interpolation strategy: from the time array and the
variance array, produce the point-evaluation function taking a query
abscissa and the extrapolation flag. -/
abbrev Interp : Type := List ℚ → List ℚ → ℚ → Bool → ℚ

/-- The state of a fully constructed `BlackVarianceCurve`: its private
members `referenceDate_`, `dayCounter_`, `maxDate_`, `underlying_`,
`times_`, `variances_` and the constructed interpolator object
`varianceSurface_` (kept as its evaluation function). -/
structure Curve where
  referenceDate : ℤ
  dayCounter : ℤ → ℤ → ℚ
  maxDate : ℤ
  underlying : String
  times : List ℚ
  variances : List ℚ
  varianceSurface : ℚ → Bool → ℚ

instance : Inhabited Curve :=
  ⟨{ referenceDate := 0, dayCounter := fun _ _ => 0, maxDate := 0,
     underlying := "", times := [], variances := [],
     varianceSurface := fun _ _ => 0 }⟩

/-- The constructor loop (lines 98-105 of the source): for each index
`j < blackVolCurve.size()` it sets `times_[j] = yearFraction(ref, dates[j])`,
requires `j == 0 || times_[j] > times_[j-1]` (else `QL_REQUIRE` throws
"dates must be sorted unique!"), and sets
`variances_[j] = times_[j] * blackVolCurve[j] * blackVolCurve[j]`.
`prev` carries `times_[j-1]` (`none` at `j = 0`).  Reading `dates[j]`
past the end of `dates` would be undefined behavior. -/
def buildNodes (yf : ℤ → ℚ) : List ℤ → List ℚ → Option ℚ → Except Err (List ℚ × List ℚ)
  | _, [], _ => .ok ([], [])
  | [], _ :: _, _ => .error .undefinedBehavior
  | d :: ds, v :: vs, prev =>
    let t := yf d
    let step : Except Err (List ℚ × List ℚ) :=
      match buildNodes yf ds vs (some t) with
      | .error e => .error e
      | .ok (ts, vars) => .ok (t :: ts, (t * v * v) :: vars)
    match prev with
    | none => step
    | some p => if p < t then step else .error .invalidInput

/-- The constructor `BlackVarianceCurve::BlackVarianceCurve` (lines 77-109).
Order of effects, as in the source: the member initializer list evaluates
`dates.back()` first (undefined behavior on an empty vector); then
`QL_REQUIRE(dates.size() == blackVolCurve.size(), ...)`; then
`QL_REQUIRE(dates[0] > referenceDate, ...)` (an out-of-range read on an
empty vector); then the node-building loop; finally the interpolator is
constructed over the two arrays. -/
def construct (mk : Interp) (referenceDate : ℤ) (dc : ℤ → ℤ → ℚ)
    (dates : List ℤ) (blackVolCurve : List ℚ) (underlying : String) :
    Except Err Curve :=
  match dates.getLast? with
  | none => .error .undefinedBehavior
  | some maxD =>
    if dates.length = blackVolCurve.length then
      match dates.head? with
      | none => .error .undefinedBehavior
      | some d0 =>
        if referenceDate < d0 then
          match buildNodes (dc referenceDate) dates blackVolCurve none with
          | .error e => .error e
          | .ok (ts, vars) =>
            .ok { referenceDate := referenceDate, dayCounter := dc,
                  maxDate := maxD, underlying := underlying,
                  times := ts, variances := vars,
                  varianceSurface := mk ts vars }
        else
          .error .invalidInput
    else
      .error .invalidInput

/-- The region-A expression of `blackVarianceImpl` (lines 127-128):
`(*varianceSurface_)(times_[0], extrapolate) * t / times_[0]`. -/
def regionAValue (c : Curve) (t : ℚ) (extrapolate : Bool) : ℚ :=
  c.varianceSurface c.times.head! extrapolate * t / c.times.head!

/-- The region-C expression of `blackVarianceImpl` (lines 138-139):
`(*varianceSurface_)(times_.back(), extrapolate) * t / times_.back()`. -/
def regionCValue (c : Curve) (t : ℚ) (extrapolate : Bool) : ℚ :=
  c.varianceSurface c.times.getLast! extrapolate * t / c.times.getLast!

/-- `BlackVarianceCurve::blackVarianceImpl(Time t, double, bool extrapolate)`
(lines 117-140).  The unused second parameter (the strike) is kept as `k`.
Control flow of the source: `QL_REQUIRE(t >= 0.0, ...)` throws on negative
time; `if (t <= times_[0])` returns the region-A value;
`else if (t <= times_.back())` returns `(*varianceSurface_)(t, extrapolate)`;
otherwise `QL_REQUIRE(extrapolate, ...)` throws when extrapolation is not
allowed, after which the trailing (un-braced but behaviorally region-C)
`return` yields the region-C value. -/
def blackVarianceImpl (c : Curve) (t : ℚ) (_k : ℚ) (extrapolate : Bool) :
    Except Err ℚ :=
  if t < 0 then .error .domainError
  else if t ≤ c.times.head! then .ok (regionAValue c t extrapolate)
  else if t ≤ c.times.getLast! then .ok (c.varianceSurface t extrapolate)
  else if extrapolate then .ok (regionCValue c t extrapolate)
  else .error .extrapolationError

/-- The observable effect of the observer hook. -/
inductive Effect where
  | notifyObservers
deriving DecidableEq, Repr

/-- `BlackVarianceCurve::update()` (lines 112-115): the body is exactly
`notifyObservers();` — no member is assigned, so the resulting state is the
input state and the only effect is the broadcast. -/
def update (c : Curve) : Curve × List Effect :=
  (c, [.notifyObservers])

/-! ### Helper lemmas about strictly increasing lists -/

theorem getLast!_cons_cons (a b : ℚ) (l : List ℚ) :
    (a :: b :: l).getLast! = (b :: l).getLast! := by
  simp [List.getLast!, List.getLast]

theorem head!_mem (l : List ℚ) (h : l ≠ []) : l.head! ∈ l := by
  cases l with
  | nil => exact absurd rfl h
  | cons a l => simp

theorem mem_le_getLast! (l : List ℚ) (hc : List.Chain' (· < ·) l) :
    ∀ x ∈ l, x ≤ l.getLast! := by
  induction l with
  | nil => intro x hx; simp at hx
  | cons a l ih =>
    intro x hx
    cases l with
    | nil =>
      simp at hx
      subst hx
      simp [List.getLast!]
    | cons b l2 =>
      rw [getLast!_cons_cons]
      obtain ⟨hab, hc2⟩ := List.chain'_cons.mp hc
      rcases List.mem_cons.mp hx with rfl | hx2
      · have hb : b ≤ (b :: l2).getLast! := ih hc2 b (by simp)
        linarith
      · exact ih hc2 x hx2

theorem head!_lt_mem_tail (l : List ℚ) (hc : List.Chain' (· < ·) l) :
    ∀ x ∈ l.tail, l.head! < x := by
  cases l with
  | nil => simp
  | cons a l =>
    intro x hx
    simp only [List.head!_cons, List.tail_cons] at *
    exact (List.pairwise_cons.mp (List.chain'_iff_pairwise.mp hc)).1 x hx

theorem get_zero_eq_head! (l : List ℚ) (h : 0 < l.length) :
    l.get ⟨0, h⟩ = l.head! := by
  cases l with
  | nil => simp at h
  | cons a l => rfl

theorem get_succ_mem_tail (l : List ℚ) (n : ℕ) (h : n + 1 < l.length) :
    l.get ⟨n + 1, h⟩ ∈ l.tail := by
  cases l with
  | nil => simp at h
  | cons a l =>
    have h2 : n < l.length := by simp at h; omega
    simp only [List.get_cons_succ, List.tail_cons]
    exact List.get_mem l n h2

theorem head!_le_mem (l : List ℚ) (hc : List.Chain' (· < ·) l) :
    ∀ x ∈ l, l.head! ≤ x := by
  cases l with
  | nil => simp
  | cons a l =>
    intro x hx
    rcases List.mem_cons.mp hx with rfl | hx2
    · simp
    · exact le_of_lt (head!_lt_mem_tail (a :: l) hc x (by simpa using hx2))

/-! ### What a successful run of the constructor loop produces -/

theorem buildNodes_ok (yf : ℤ → ℚ) :
    ∀ (ds : List ℤ) (vs : List ℚ) (prev : Option ℚ) (ts vars : List ℚ),
      buildNodes yf ds vs prev = .ok (ts, vars) →
      ds.length = vs.length →
      ts = ds.map yf ∧
      vars = List.zipWith (fun t v => t * v * v) (ds.map yf) vs ∧
      List.Chain' (· < ·) ts ∧
      ∀ p, prev = some p → ∀ x ∈ ts, p < x := by
  intro ds
  induction ds with
  | nil =>
    intro vs prev ts vars h hlen
    cases vs with
    | nil =>
      simp only [buildNodes, Except.ok.injEq, Prod.mk.injEq] at h
      obtain ⟨rfl, rfl⟩ := h
      simp
    | cons v vs => simp at hlen
  | cons d ds ih =>
    intro vs prev ts vars h hlen
    cases vs with
    | nil => simp at hlen
    | cons v vs =>
      have hstep : ∀ (hcond : (∀ p, prev = some p → p < yf d)),
          buildNodes yf (d :: ds) (v :: vs) prev = .ok (ts, vars) →
          ts = (d :: ds).map yf ∧
          vars = List.zipWith (fun t v => t * v * v) ((d :: ds).map yf) (v :: vs) ∧
          List.Chain' (· < ·) ts ∧
          ∀ p, prev = some p → ∀ x ∈ ts, p < x := by
        intro hcond h2
        have hred : buildNodes yf (d :: ds) (v :: vs) prev =
            match buildNodes yf ds vs (some (yf d)) with
            | .error e => .error e
            | .ok (ts2, vars2) => .ok (yf d :: ts2, (yf d * v * v) :: vars2) := by
          cases prev with
          | none => rfl
          | some p => simp [buildNodes, hcond p rfl]
        rw [hred] at h2
        cases hrec : buildNodes yf ds vs (some (yf d)) with
        | error e => rw [hrec] at h2; simp at h2
        | ok pr =>
          obtain ⟨ts2, vars2⟩ := pr
          rw [hrec] at h2
          simp only [Except.ok.injEq, Prod.mk.injEq] at h2
          obtain ⟨rfl, rfl⟩ := h2.symm
          obtain ⟨hts, hvars, hchain, hbound⟩ :=
            ih vs (some (yf d)) ts2 vars2 hrec (by simpa using hlen)
          refine ⟨by rw [hts]; simp, by rw [hvars]; simp, ?_, ?_⟩
          · rw [List.chain'_cons']
            refine ⟨fun y hy => ?_, hchain⟩
            exact hbound (yf d) rfl y (List.mem_of_mem_head? hy)
          · intro p hpeq x hx
            rcases List.mem_cons.mp hx with rfl | hx2
            · exact hcond p hpeq
            · exact lt_trans (hcond p hpeq) (hbound (yf d) rfl x hx2)
      cases prev with
      | none => exact hstep (fun p hp => by simp at hp) h
      | some p0 =>
        by_cases hpd : p0 < yf d
        · exact hstep (fun p hp => by cases hp; exact hpd) h
        · have : buildNodes yf (d :: ds) (v :: vs) (some p0) = .error .invalidInput := by
            simp [buildNodes, hpd]
          rw [this] at h
          simp at h

/-- The condition under which the constructor loop runs to completion,
relative to the previously computed time it carries. -/
def prevChain (prev : Option ℚ) (l : List ℚ) : Prop :=
  match prev with
  | none => List.Chain' (· < ·) l
  | some p => List.Chain' (· < ·) (p :: l)

theorem buildNodes_success (yf : ℤ → ℚ) :
    ∀ (ds : List ℤ) (vs : List ℚ) (prev : Option ℚ),
      ds.length = vs.length →
      prevChain prev (ds.map yf) →
      buildNodes yf ds vs prev =
        .ok (ds.map yf, List.zipWith (fun t v => t * v * v) (ds.map yf) vs) := by
  intro ds
  induction ds with
  | nil =>
    intro vs prev hlen hc
    cases vs with
    | nil => rfl
    | cons v vs => simp at hlen
  | cons d ds ih =>
    intro vs prev hlen hc
    cases vs with
    | nil => simp at hlen
    | cons v vs =>
      have hc2 : prevChain (some (yf d)) (ds.map yf) := by
        cases prev with
        | none => exact hc
        | some p => exact (List.chain'_cons.mp hc).2
      have hrec := ih vs (some (yf d)) (by simpa using hlen) hc2
      cases prev with
      | none => simp [buildNodes, hrec]
      | some p =>
        have hpd : p < yf d := (List.chain'_cons.mp hc).1
        simp [buildNodes, hpd, hrec]

theorem buildNodes_fail (yf : ℤ → ℚ) :
    ∀ (ds : List ℤ) (vs : List ℚ) (prev : Option ℚ),
      ds.length = vs.length →
      ¬ prevChain prev (ds.map yf) →
      buildNodes yf ds vs prev = .error .invalidInput := by
  intro ds
  induction ds with
  | nil =>
    intro vs prev hlen hc
    exfalso
    apply hc
    cases prev with
    | none => simp [prevChain]
    | some p => simp [prevChain]
  | cons d ds ih =>
    intro vs prev hlen hc
    cases vs with
    | nil => simp at hlen
    | cons v vs =>
      cases prev with
      | none =>
        have hc2 : ¬ prevChain (some (yf d)) (ds.map yf) := hc
        simp [buildNodes, ih vs (some (yf d)) (by simpa using hlen) hc2]
      | some p =>
        by_cases hpd : p < yf d
        · have hc2 : ¬ prevChain (some (yf d)) (ds.map yf) := by
            intro h2
            exact hc (List.chain'_cons.mpr ⟨hpd, h2⟩)
          simp [buildNodes, hpd, ih vs (some (yf d)) (by simpa using hlen) hc2]
        · simp [buildNodes, hpd]

/-! ### What a successful construction guarantees -/

theorem construct_ok (mk : Interp) (R : ℤ) (dc : ℤ → ℤ → ℚ)
    (dates : List ℤ) (vols : List ℚ) (u : String) (c : Curve)
    (h : construct mk R dc dates vols u = .ok c) :
    dates ≠ [] ∧
    dates.length = vols.length ∧
    (∀ d0 ∈ dates.head?, R < d0) ∧
    c.referenceDate = R ∧ c.dayCounter = dc ∧
    dates.getLast? = some c.maxDate ∧ c.underlying = u ∧
    c.times = dates.map (dc R) ∧
    c.variances = List.zipWith (fun t v => t * v * v) (dates.map (dc R)) vols ∧
    List.Chain' (· < ·) c.times ∧
    c.varianceSurface = mk c.times c.variances := by
  unfold construct at h
  cases hl : dates.getLast? with
  | none => rw [hl] at h; simp at h
  | some maxD =>
    rw [hl] at h
    simp only at h
    by_cases hlen : dates.length = vols.length
    · rw [if_pos hlen] at h
      cases hh : dates.head? with
      | none => rw [hh] at h; simp at h
      | some d0 =>
        rw [hh] at h
        simp only at h
        by_cases hR : R < d0
        · rw [if_pos hR] at h
          cases hb : buildNodes (dc R) dates vols none with
          | error e => rw [hb] at h; simp at h
          | ok pr =>
            obtain ⟨ts, vars⟩ := pr
            rw [hb] at h
            simp only [Except.ok.injEq] at h
            obtain ⟨hts, hvars, hchain, _⟩ :=
              buildNodes_ok (dc R) dates vols none ts vars hb hlen
            subst h
            refine ⟨?_, hlen, ?_, rfl, rfl, rfl, rfl, hts, hvars, hchain, rfl⟩
            · intro hnil; rw [hnil] at hl; simp at hl
            · intro x hx; simp at hx; rwa [← hx]
        · rw [if_neg hR] at h; simp at h
    · rw [if_neg hlen] at h; simp at h

/-- Exhaustive outcome analysis of the constructor on a non-empty date
vector: it raises `invalidInput` exactly when one of the three documented
conditions is violated, and otherwise succeeds. -/
theorem construct_total (mk : Interp) (R : ℤ) (dc : ℤ → ℤ → ℚ)
    (dates : List ℤ) (vols : List ℚ) (u : String) (hne : dates ≠ []) :
    (¬ (dates.length ≠ vols.length ∨
        (∃ d0, dates.head? = some d0 ∧ ¬ R < d0) ∨
        ¬ List.Chain' (· < ·) (dates.map (dc R))) →
      ∃ c, construct mk R dc dates vols u = .ok c) ∧
    ((dates.length ≠ vols.length ∨
        (∃ d0, dates.head? = some d0 ∧ ¬ R < d0) ∨
        ¬ List.Chain' (· < ·) (dates.map (dc R))) →
      construct mk R dc dates vols u = .error .invalidInput) := by
  obtain ⟨d, ds, rfl⟩ : ∃ d ds, dates = d :: ds := by
    cases dates with
    | nil => exact absurd rfl hne
    | cons d ds => exact ⟨d, ds, rfl⟩
  obtain ⟨m, hm⟩ : ∃ m, (d :: ds).getLast? = some m := by
    rw [← Option.isSome_iff_exists, List.getLast?_isSome]
    simp
  by_cases hlen : (d :: ds).length = vols.length
  · by_cases hR : R < d
    · by_cases hch : List.Chain' (· < ·) ((d :: ds).map (dc R))
      · have hbn := buildNodes_success (dc R) (d :: ds) vols none hlen hch
        have hok : ∃ c, construct mk R dc (d :: ds) vols u = .ok c := by
          refine ⟨{ referenceDate := R, dayCounter := dc, maxDate := m,
                    underlying := u, times := (d :: ds).map (dc R),
                    variances := List.zipWith (fun t v => t * v * v)
                      ((d :: ds).map (dc R)) vols,
                    varianceSurface := mk ((d :: ds).map (dc R))
                      (List.zipWith (fun t v => t * v * v)
                        ((d :: ds).map (dc R)) vols) }, ?_⟩
          simp [construct, hm, hlen, hR, hbn]
        refine ⟨fun _ => hok, fun hbad => ?_⟩
        rcases hbad with h1 | ⟨d0, hd0, h2⟩ | h3
        · exact absurd hlen h1
        · have : d0 = d := by simpa using hd0.symm
          exact absurd hR (this ▸ h2)
        · exact absurd hch h3
      · have hbn := buildNodes_fail (dc R) (d :: ds) vols none hlen hch
        have herr : construct mk R dc (d :: ds) vols u = .error .invalidInput := by
          simp [construct, hm, hlen, hR, hbn]
        exact ⟨fun hn => absurd (Or.inr (Or.inr hch)) hn, fun _ => herr⟩
    · have herr : construct mk R dc (d :: ds) vols u = .error .invalidInput := by
        simp [construct, hm, hlen, hR]
      exact ⟨fun hn => absurd (Or.inr (Or.inl ⟨d, rfl, hR⟩)) hn, fun _ => herr⟩
  · have hlen2 : ¬ ds.length + 1 = vols.length := by simpa using hlen
    have herr : construct mk R dc (d :: ds) vols u = .error .invalidInput := by
      simp [construct, hm, hlen2]
    exact ⟨fun hn => absurd (Or.inl hlen) hn, fun _ => herr⟩

/-! ### Concrete collaborators and inputs used as witnesses -/

/-- A day counter for the examples: serial-day difference over a 365-day
year (with the example dates the computed times are integral). -/
def yfAct365 (r d : ℤ) : ℚ := ((d - r : ℤ) : ℚ) / 365

/-- An interpolation strategy for the examples: point evaluation returns
the query abscissa itself.  It interpolates the example nodes exactly,
because with unit volatilities each node's variance equals its time. -/
def idInterp : Interp := fun _ _ x _ => x

def exDates : List ℤ := [365, 730, 1095]

def exVols : List ℚ := [1, 1, 1]

def exResult : Except Err Curve := construct idInterp 0 yfAct365 exDates exVols ""

/-- The curve the example construction produces, written out literally. -/
def exCurve : Curve :=
  { referenceDate := 0, dayCounter := yfAct365, maxDate := 1095,
    underlying := "", times := [1, 2, 3], variances := [1, 2, 3],
    varianceSurface := idInterp [1, 2, 3] [1, 2, 3] }

theorem exTimes_eval : exDates.map (yfAct365 0) = [1, 2, 3] := by
  norm_num [exDates, yfAct365]

theorem exResult_eq : exResult = .ok exCurve := by
  have hbn := buildNodes_success (yfAct365 0) exDates exVols none (by norm_num [exDates, exVols])
    (by rw [exTimes_eval]
        show List.Chain' (· < ·) ([1, 2, 3] : List ℚ)
        norm_num [List.chain'_cons])
  rw [exTimes_eval] at hbn
  simp only [exVols, exDates] at hbn ⊢
  simp [exResult, exDates, exVols, construct, hbn, exCurve, idInterp]

theorem exCurve_head : exCurve.times.head! = 1 := by
  simp [exCurve]

theorem exCurve_last : exCurve.times.getLast! = 3 := by
  simp [exCurve, List.getLast!, List.getLast]

/-! ### Facts a successful construction provides about the node arrays -/

theorem construct_times_shape (mk : Interp) (R : ℤ) (dc : ℤ → ℤ → ℚ)
    (dates : List ℤ) (vols : List ℚ) (u : String) (c : Curve)
    (h : construct mk R dc dates vols u = .ok c) :
    c.times ≠ [] ∧ List.Chain' (· < ·) c.times ∧
    c.times.head! ≤ c.times.getLast! := by
  obtain ⟨hne, -, -, -, -, -, -, hts, -, hchain, -⟩ := construct_ok mk R dc dates vols u c h
  have hne2 : c.times ≠ [] := by
    rw [hts]
    simpa [List.map_eq_nil_iff] using hne
  exact ⟨hne2, hchain, mem_le_getLast! _ hchain _ (head!_mem _ hne2)⟩

theorem construct_head_facts (mk : Interp) (R : ℤ) (dc : ℤ → ℤ → ℚ)
    (dates : List ℤ) (vols : List ℚ) (u : String) (c : Curve)
    (h : construct mk R dc dates vols u = .ok c) :
    ∃ d0, dates.head? = some d0 ∧ d0 ∈ dates ∧ R < d0 ∧
      c.times.head! = dc R d0 := by
  obtain ⟨hne, -, hhead, -, -, -, -, hts, -, -, -⟩ := construct_ok mk R dc dates vols u c h
  obtain ⟨d, ds, rfl⟩ : ∃ d ds, dates = d :: ds := by
    cases dates with
    | nil => exact absurd rfl hne
    | cons d ds => exact ⟨d, ds, rfl⟩
  refine ⟨d, rfl, by simp, hhead d (by simp), ?_⟩
  rw [hts]; simp

theorem construct_variances_head (mk : Interp) (R : ℤ) (dc : ℤ → ℤ → ℚ)
    (dates : List ℤ) (vols : List ℚ) (u : String) (c : Curve)
    (h : construct mk R dc dates vols u = .ok c) :
    c.variances.head! = c.times.head! * vols.head! * vols.head! := by
  obtain ⟨hne, hlen, -, -, -, -, -, hts, hvars, -, -⟩ := construct_ok mk R dc dates vols u c h
  obtain ⟨d, ds, rfl⟩ : ∃ d ds, dates = d :: ds := by
    cases dates with
    | nil => exact absurd rfl hne
    | cons d ds => exact ⟨d, ds, rfl⟩
  cases vols with
  | nil => simp at hlen
  | cons v vs => rw [hts, hvars]; simp

/-! ### The claims -/

/-- C8: `update()` (the spec's `onUpstreamChange()`) leaves every stored
field of the curve unchanged — reference date, day counter, max date,
underlying label, times, variances and the interpolant — performing no
internal recomputation; its only effect is to forward a notification to
registered observers. -/
theorem update_preserves_state_and_only_notifies (c : Curve) :
    (update c).1 = c ∧
    (update c).1.referenceDate = c.referenceDate ∧
    (update c).1.dayCounter = c.dayCounter ∧
    (update c).1.maxDate = c.maxDate ∧
    (update c).1.underlying = c.underlying ∧
    (update c).1.times = c.times ∧
    (update c).1.variances = c.variances ∧
    (update c).1.varianceSurface = c.varianceSurface ∧
    (update c).2 = [Effect.notifyObservers] :=
  ⟨rfl, rfl, rfl, rfl, rfl, rfl, rfl, rfl, rfl⟩

/-- C9: for an empty date vector the constructor performs the
out-of-contract `dates.back()` read in its member initializer list before
the documented size-mismatch check can run, so construction neither
succeeds nor raises `InvalidInputError` (whatever the volatility vector);
the documented construction contract applies only to non-empty date
input. -/
theorem construct_empty_dates_undefined (mk : Interp) (R : ℤ)
    (dc : ℤ → ℤ → ℚ) (vols : List ℚ) (u : String) :
    construct mk R dc [] vols u = .error .undefinedBehavior ∧
    construct mk R dc [] vols u ≠ .error .invalidInput ∧
    ∀ c, construct mk R dc [] vols u ≠ .ok c := by
  refine ⟨rfl, by simp [construct], fun c => by simp [construct]⟩

/-- C3: for every validly constructed curve and every t with
0 ≤ t ≤ times[0], `variance(t, extrapolate)` returns
`interpolant(times[0], extrapolate) * t / times[0]`; in particular
`variance(0, false) = 0`.  (The hypothesis `0 ≤ times[0]` encodes the
day-counter collaborator contract that year fractions of dates at or
after the reference date are non-negative.) -/
theorem regionA_formula (mk : Interp) (R : ℤ) (dc : ℤ → ℤ → ℚ)
    (dates : List ℤ) (vols : List ℚ) (u : String) (c : Curve) (k : ℚ)
    (h : construct mk R dc dates vols u = .ok c)
    (hnn : 0 ≤ c.times.head!) :
    (∀ t e, 0 ≤ t → t ≤ c.times.head! →
      blackVarianceImpl c t k e =
        .ok (c.varianceSurface c.times.head! e * t / c.times.head!)) ∧
    blackVarianceImpl c 0 k false = .ok 0 := by
  constructor
  · intro t e ht0 ht1
    simp [blackVarianceImpl, regionAValue, not_lt.mpr ht0, ht1]
  · simp [blackVarianceImpl, regionAValue, hnn]

theorem regionA_formula_witness :
    blackVarianceImpl exCurve (1/2) 0 false = .ok (1/2) ∧
    blackVarianceImpl exCurve 0 0 false = .ok 0 := by
  have h := regionA_formula idInterp 0 yfAct365 exDates exVols "" exCurve 0
    exResult_eq (by rw [exCurve_head]; norm_num)
  refine ⟨?_, h.2⟩
  have h2 := h.1 (1/2) false (by norm_num) (by rw [exCurve_head]; norm_num)
  rw [exCurve_head] at h2
  norm_num [exCurve, idInterp] at h2
  exact h2

/-- C4: for every successful construction from reference date R, dates
and Black volatilities, the stored arrays satisfy
`times[j] = yearFraction(R, dates[j])` and
`variances[j] = times[j] * vols[j] * vols[j]` at every index, and the
stored times are strictly increasing. -/
theorem nodes_from_quotes (mk : Interp) (R : ℤ) (dc : ℤ → ℤ → ℚ)
    (dates : List ℤ) (vols : List ℚ) (u : String) (c : Curve)
    (h : construct mk R dc dates vols u = .ok c) :
    c.times = dates.map (dc R) ∧
    c.variances = List.zipWith (fun t v => t * v * v) (dates.map (dc R)) vols ∧
    List.Chain' (· < ·) c.times ∧
    ∀ j (h1 : j < dates.length) (h2 : j < vols.length)
      (h3 : j < c.times.length) (h4 : j < c.variances.length),
      c.times.get ⟨j, h3⟩ = dc R (dates.get ⟨j, h1⟩) ∧
      c.variances.get ⟨j, h4⟩ =
        c.times.get ⟨j, h3⟩ * vols.get ⟨j, h2⟩ * vols.get ⟨j, h2⟩ := by
  obtain ⟨-, hlen, -, -, -, -, -, hts, hvars, hchain, -⟩ :=
    construct_ok mk R dc dates vols u c h
  refine ⟨hts, hvars, hchain, ?_⟩
  intro j h1 h2 h3 h4
  constructor
  · simp only [hts, List.get_eq_getElem, List.getElem_map]
  · simp only [hts, hvars, List.get_eq_getElem, List.getElem_zipWith,
      List.getElem_map]

theorem nodes_from_quotes_witness :
    exCurve.times = exDates.map (yfAct365 0) ∧
    List.Chain' (· < ·) exCurve.times ∧
    exCurve.times = [1, 2, 3] ∧ exCurve.variances = [1, 2, 3] := by
  have h := nodes_from_quotes idInterp 0 yfAct365 exDates exVols "" exCurve
    exResult_eq
  exact ⟨h.1, h.2.2.1, rfl, rfl⟩

/-- C1: for every validly constructed curve, every time t and flag:
`variance(t, extrapolate)` fails with `DomainError` when t < 0; fails with
`ExtrapolationError` when t > times.back() and extrapolation is not
allowed; succeeds with `interpolant(times.back(), extrapolate) * t /
times.back()` when t > times.back() and extrapolation is allowed; and has
no other failure case.  (`0 ≤ times[0]` again encodes the day-counter
collaborator contract.)  The un-braced `else` before the region-C
`QL_REQUIRE` in the source is behaviorally harmless — both earlier
branches return — so the code implements exactly the documented policy. -/
theorem query_error_policy (mk : Interp) (R : ℤ) (dc : ℤ → ℤ → ℚ)
    (dates : List ℤ) (vols : List ℚ) (u : String) (c : Curve) (k : ℚ)
    (h : construct mk R dc dates vols u = .ok c)
    (hnn : 0 ≤ c.times.head!) :
    ∀ t e,
      (t < 0 → blackVarianceImpl c t k e = .error .domainError) ∧
      (c.times.getLast! < t → e = false →
        blackVarianceImpl c t k e = .error .extrapolationError) ∧
      (c.times.getLast! < t → e = true →
        blackVarianceImpl c t k e =
          .ok (c.varianceSurface c.times.getLast! e * t / c.times.getLast!)) ∧
      (0 ≤ t → (t ≤ c.times.getLast! ∨ e = true) →
        ∃ v, blackVarianceImpl c t k e = .ok v) ∧
      (∀ err, blackVarianceImpl c t k e = .error err →
        (err = .domainError ∧ t < 0) ∨
        (err = .extrapolationError ∧ c.times.getLast! < t ∧ e = false)) := by
  obtain ⟨-, -, hle⟩ := construct_times_shape mk R dc dates vols u c h
  intro t e
  have hlast0 : (0 : ℚ) ≤ c.times.getLast! := le_trans hnn hle
  refine ⟨fun ht => by simp [blackVarianceImpl, ht], ?_, ?_, ?_, ?_⟩
  · intro hlt he
    have h1 : ¬ t < 0 := not_lt.mpr (le_trans hlast0 hlt.le)
    have h2 : ¬ t ≤ c.times.head! := not_le.mpr (lt_of_le_of_lt hle hlt)
    have h3 : ¬ t ≤ c.times.getLast! := not_le.mpr hlt
    simp [blackVarianceImpl, h1, h2, h3, he]
  · intro hlt he
    have h1 : ¬ t < 0 := not_lt.mpr (le_trans hlast0 hlt.le)
    have h2 : ¬ t ≤ c.times.head! := not_le.mpr (lt_of_le_of_lt hle hlt)
    have h3 : ¬ t ≤ c.times.getLast! := not_le.mpr hlt
    simp [blackVarianceImpl, regionCValue, h1, h2, h3, he]
  · intro ht0 hor
    have h1 : ¬ t < 0 := not_lt.mpr ht0
    by_cases hA : t ≤ c.times.head!
    · exact ⟨regionAValue c t e, by simp [blackVarianceImpl, h1, hA]⟩
    · by_cases hB : t ≤ c.times.getLast!
      · exact ⟨c.varianceSurface t e, by simp [blackVarianceImpl, h1, hA, hB]⟩
      · rcases hor with hor | rfl
        · exact absurd hor hB
        · exact ⟨regionCValue c t true, by simp [blackVarianceImpl, h1, hA, hB]⟩
  · intro err herr
    by_cases h1 : t < 0
    · left
      refine ⟨?_, h1⟩
      simp [blackVarianceImpl, h1] at herr
      exact herr.symm
    · by_cases hA : t ≤ c.times.head!
      · simp [blackVarianceImpl, h1, hA] at herr
      · by_cases hB : t ≤ c.times.getLast!
        · simp [blackVarianceImpl, h1, hA, hB] at herr
        · cases e with
          | true => simp [blackVarianceImpl, h1, hA, hB] at herr
          | false =>
            right
            refine ⟨?_, not_le.mp hB, rfl⟩
            simp [blackVarianceImpl, h1, hA, hB] at herr
            exact herr.symm

theorem query_error_policy_witness :
    blackVarianceImpl exCurve (-1) 0 false = .error .domainError ∧
    blackVarianceImpl exCurve 4 0 false = .error .extrapolationError ∧
    blackVarianceImpl exCurve 6 0 true = .ok 6 := by
  have h := query_error_policy idInterp 0 yfAct365 exDates exVols "" exCurve 0
    exResult_eq (by rw [exCurve_head]; norm_num)
  refine ⟨(h (-1) false).1 (by norm_num), ?_, ?_⟩
  · exact (h 4 false).2.1 (by rw [exCurve_last]; norm_num) rfl
  · have h3 := (h 6 true).2.2.1 (by rw [exCurve_last]; norm_num) rfl
    rw [exCurve_last] at h3
    norm_num [exCurve, idInterp] at h3
    exact h3

/-- C5: the query is continuous at both region boundaries: the region-A
expression evaluated at t = times[0] equals the interpolant's value at
times[0] (the region-B value there), and the region-C expression
evaluated at t = times.back() equals the interpolant's value at
times.back(); moreover the query itself returns exactly those interpolant
values at the two boundary points.  (Exact rational equality stands in
for the spec's "up to floating-point".) -/
theorem boundary_continuity (mk : Interp) (R : ℤ) (dc : ℤ → ℤ → ℚ)
    (dates : List ℤ) (vols : List ℚ) (u : String) (c : Curve) (k : ℚ) (e : Bool)
    (h : construct mk R dc dates vols u = .ok c)
    (h0 : 0 < c.times.head!) :
    regionAValue c c.times.head! e = c.varianceSurface c.times.head! e ∧
    regionCValue c c.times.getLast! e = c.varianceSurface c.times.getLast! e ∧
    blackVarianceImpl c c.times.head! k e =
      .ok (c.varianceSurface c.times.head! e) ∧
    blackVarianceImpl c c.times.getLast! k e =
      .ok (c.varianceSurface c.times.getLast! e) := by
  obtain ⟨-, -, hle⟩ := construct_times_shape mk R dc dates vols u c h
  have hlast0 : (0 : ℚ) < c.times.getLast! := lt_of_lt_of_le h0 hle
  have hA : regionAValue c c.times.head! e = c.varianceSurface c.times.head! e := by
    rw [regionAValue, mul_div_assoc, div_self (ne_of_gt h0), mul_one]
  have hC : regionCValue c c.times.getLast! e =
      c.varianceSurface c.times.getLast! e := by
    rw [regionCValue, mul_div_assoc, div_self (ne_of_gt hlast0), mul_one]
  refine ⟨hA, hC, ?_, ?_⟩
  · rw [show blackVarianceImpl c c.times.head! k e = .ok (regionAValue c c.times.head! e) from by
      simp [blackVarianceImpl, not_lt.mpr h0.le], hA]
  · by_cases hBA : c.times.getLast! ≤ c.times.head!
    · have heq : c.times.head! = c.times.getLast! := le_antisymm hle hBA
      rw [show blackVarianceImpl c c.times.getLast! k e =
          .ok (regionAValue c c.times.getLast! e) from by
        simp [blackVarianceImpl, not_lt.mpr hlast0.le, hBA]]
      rw [← heq] at hlast0 ⊢
      rw [hA]
    · rw [show blackVarianceImpl c c.times.getLast! k e =
          .ok (c.varianceSurface c.times.getLast! e) from by
        simp [blackVarianceImpl, not_lt.mpr hlast0.le, hBA]]

theorem boundary_continuity_witness :
    regionAValue exCurve 1 false = 1 ∧
    blackVarianceImpl exCurve 1 0 false = .ok 1 ∧
    blackVarianceImpl exCurve 3 0 false = .ok 3 := by
  have h := boundary_continuity idInterp 0 yfAct365 exDates exVols "" exCurve 0
    false exResult_eq (by rw [exCurve_head]; norm_num)
  obtain ⟨h1, -, h3, h4⟩ := h
  rw [exCurve_head] at h1 h3
  rw [exCurve_last] at h4
  refine ⟨?_, ?_, ?_⟩
  · rw [h1]; norm_num [exCurve, idInterp]
  · rw [h3]; norm_num [exCurve, idInterp]
  · rw [h4]; norm_num [exCurve, idInterp]

/-- C6: for every validly constructed curve, under the hypothesis that
the interpolant reproduces its node values exactly, the query at each
stored node time with extrapolation disallowed returns exactly the stored
node variance. -/
theorem variance_at_nodes (mk : Interp) (R : ℤ) (dc : ℤ → ℤ → ℚ)
    (dates : List ℤ) (vols : List ℚ) (u : String) (c : Curve) (k : ℚ)
    (h : construct mk R dc dates vols u = .ok c)
    (h0 : 0 < c.times.head!)
    (hrepro : ∀ i (hi : i < c.times.length) (hj : i < c.variances.length),
      c.varianceSurface (c.times.get ⟨i, hi⟩) false = c.variances.get ⟨i, hj⟩) :
    ∀ i (hi : i < c.times.length) (hj : i < c.variances.length),
      blackVarianceImpl c (c.times.get ⟨i, hi⟩) k false =
        .ok (c.variances.get ⟨i, hj⟩) := by
  obtain ⟨hne, hchain, hle⟩ := construct_times_shape mk R dc dates vols u c h
  intro i hi hj
  have hmem : c.times.get ⟨i, hi⟩ ∈ c.times := List.get_mem c.times i hi
  have htle : c.times.get ⟨i, hi⟩ ≤ c.times.getLast! :=
    mem_le_getLast! c.times hchain _ hmem
  have hhle : c.times.head! ≤ c.times.get ⟨i, hi⟩ :=
    head!_le_mem c.times hchain _ hmem
  have hpos : (0 : ℚ) < c.times.get ⟨i, hi⟩ := lt_of_lt_of_le h0 hhle
  cases i with
  | zero =>
    have heq : c.times.get ⟨0, hi⟩ = c.times.head! := get_zero_eq_head! c.times hi
    have himpl : blackVarianceImpl c c.times.head! k false =
        .ok (regionAValue c c.times.head! false) := by
      unfold blackVarianceImpl
      rw [if_neg (not_lt.mpr h0.le), if_pos le_rfl]
    rw [heq, himpl, regionAValue, mul_div_assoc, div_self (ne_of_gt h0),
      mul_one, ← heq, hrepro 0 hi hj]
  | succ n =>
    have htail : c.times.get ⟨n + 1, hi⟩ ∈ c.times.tail :=
      get_succ_mem_tail c.times n hi
    have hgt : c.times.head! < c.times.get ⟨n + 1, hi⟩ :=
      head!_lt_mem_tail c.times hchain _ htail
    have hceq : blackVarianceImpl c (c.times.get ⟨n + 1, hi⟩) k false =
        .ok (c.varianceSurface (c.times.get ⟨n + 1, hi⟩) false) := by
      unfold blackVarianceImpl
      rw [if_neg (not_lt.mpr hpos.le), if_neg (not_le.mpr hgt), if_pos htle]
    rw [hceq, hrepro (n + 1) hi hj]

theorem variance_at_nodes_witness :
    blackVarianceImpl exCurve 2 0 false = .ok 2 := by
  have hrepro : ∀ i (hi : i < exCurve.times.length)
      (hj : i < exCurve.variances.length),
      exCurve.varianceSurface (exCurve.times.get ⟨i, hi⟩) false =
        exCurve.variances.get ⟨i, hj⟩ := by
    intro i hi hj
    simp [exCurve, idInterp]
  have h := variance_at_nodes idInterp 0 yfAct365 exDates exVols "" exCurve 0
    exResult_eq (by rw [exCurve_head]; norm_num) hrepro 1
    (by simp [exCurve]) (by simp [exCurve])
  simpa [exCurve] using h

/-- C7: if all supplied volatilities are non-negative and the interpolant
is well behaved on the node range — it takes the first node's stored
variance at times[0] and is non-decreasing on [times[0], times.back()] —
then the query is non-decreasing on [0, times.back()]: for t1 < t2 both in
range, variance(t2) ≥ variance(t1).  (`0 < times[0]` encodes, as before,
the day-counter collaborator contract.) -/
theorem variance_monotone (mk : Interp) (R : ℤ) (dc : ℤ → ℤ → ℚ)
    (dates : List ℤ) (vols : List ℚ) (u : String) (c : Curve) (k : ℚ) (e : Bool)
    (h : construct mk R dc dates vols u = .ok c)
    (h0 : 0 < c.times.head!)
    (hvols : ∀ v ∈ vols, 0 ≤ v)
    (hfirst : c.varianceSurface c.times.head! e = c.variances.head!)
    (hmono : ∀ x y, c.times.head! ≤ x → x ≤ y → y ≤ c.times.getLast! →
      c.varianceSurface x e ≤ c.varianceSurface y e) :
    ∀ t1 t2, 0 ≤ t1 → t1 < t2 → t2 ≤ c.times.getLast! →
      ∃ v1 v2, blackVarianceImpl c t1 k e = .ok v1 ∧
        blackVarianceImpl c t2 k e = .ok v2 ∧ v1 ≤ v2 := by
  have hs0 : (0 : ℚ) ≤ c.varianceSurface c.times.head! e := by
    rw [hfirst, construct_variances_head mk R dc dates vols u c h, mul_assoc]
    exact mul_nonneg h0.le (mul_self_nonneg _)
  intro t1 t2 ht1 hlt ht2
  have ht2nn : (0 : ℚ) ≤ t2 := le_trans ht1 hlt.le
  have hAval : ∀ t, ¬ t < 0 → t ≤ c.times.head! →
      blackVarianceImpl c t k e = .ok (regionAValue c t e) := by
    intro t hneg hA
    unfold blackVarianceImpl
    rw [if_neg hneg, if_pos hA]
  have hBval : ∀ t, ¬ t < 0 → ¬ t ≤ c.times.head! → t ≤ c.times.getLast! →
      blackVarianceImpl c t k e = .ok (c.varianceSurface t e) := by
    intro t hneg hA hB
    unfold blackVarianceImpl
    rw [if_neg hneg, if_neg hA, if_pos hB]
  have hAle : ∀ t, t ≤ c.times.head! → regionAValue c t e ≤
      c.varianceSurface c.times.head! e := by
    intro t hA
    rw [regionAValue]
    calc c.varianceSurface c.times.head! e * t / c.times.head!
        ≤ c.varianceSurface c.times.head! e * c.times.head! / c.times.head! := by
          gcongr
      _ = c.varianceSurface c.times.head! e := by
          rw [mul_div_assoc, div_self (ne_of_gt h0), mul_one]
  by_cases hA1 : t1 ≤ c.times.head!
  · by_cases hA2 : t2 ≤ c.times.head!
    · refine ⟨regionAValue c t1 e, regionAValue c t2 e,
        hAval t1 (not_lt.mpr ht1) hA1, hAval t2 (not_lt.mpr ht2nn) hA2, ?_⟩
      rw [regionAValue, regionAValue]
      gcongr
    · refine ⟨regionAValue c t1 e, c.varianceSurface t2 e,
        hAval t1 (not_lt.mpr ht1) hA1,
        hBval t2 (not_lt.mpr ht2nn) hA2 ht2, ?_⟩
      exact le_trans (hAle t1 hA1)
        (hmono c.times.head! t2 le_rfl (not_le.mp hA2).le ht2)
  · have hh1 : c.times.head! ≤ t1 := (not_le.mp hA1).le
    have ht1le : t1 ≤ c.times.getLast! := le_trans hlt.le ht2
    by_cases hA2 : t2 ≤ c.times.head!
    · exact absurd (le_trans hlt.le hA2) hA1
    · exact ⟨c.varianceSurface t1 e, c.varianceSurface t2 e,
        hBval t1 (not_lt.mpr ht1) hA1 ht1le,
        hBval t2 (not_lt.mpr ht2nn) hA2 ht2,
        hmono t1 t2 hh1 hlt.le ht2⟩

theorem variance_monotone_witness :
    ∃ v1 v2, blackVarianceImpl exCurve (1/2) 0 false = .ok v1 ∧
      blackVarianceImpl exCurve (5/2) 0 false = .ok v2 ∧ v1 ≤ v2 := by
  refine variance_monotone idInterp 0 yfAct365 exDates exVols "" exCurve 0 false
    exResult_eq (by rw [exCurve_head]; norm_num) ?_ ?_ ?_
    (1/2) (5/2) (by norm_num) (by norm_num) (by rw [exCurve_last]; norm_num)
  · intro v hv
    simp [exVols] at hv
    rw [hv]; norm_num
  · simp [exCurve, idInterp]
  · intro x y hx hxy hy
    simpa [exCurve, idInterp] using hxy

/-- C2 counterexample: with an empty date vector and a one-element
volatility vector the date count differs from the volatility count, yet
construction does not fail with `InvalidInputError`: the member
initializer list evaluates `dates.back()` first, an out-of-contract read
of an empty vector (undefined behavior), so the claimed error contract
does not hold for empty date input. -/
theorem construct_size_mismatch_cex :
    ([] : List ℤ).length ≠ ([0] : List ℚ).length ∧
    construct idInterp 0 yfAct365 [] [0] "" ≠ .error .invalidInput ∧
    construct idInterp 0 yfAct365 [] [0] "" = .error .undefinedBehavior := by
  exact ⟨by simp, by simp [construct], rfl⟩

/-- C2 (amended): for every NON-EMPTY date sequence, construction fails
with `InvalidInputError` exactly when the date count differs from the
volatility count, or the first date is not strictly after the reference
date, or the computed times are not strictly increasing; on failure no
curve is observable (all-or-nothing), and no error other than
`InvalidInputError` can occur. -/
theorem construct_error_contract (mk : Interp) (R : ℤ) (dc : ℤ → ℤ → ℚ)
    (dates : List ℤ) (vols : List ℚ) (u : String) (hne : dates ≠ []) :
    (construct mk R dc dates vols u = .error .invalidInput ↔
      (dates.length ≠ vols.length ∨
       (∃ d0, dates.head? = some d0 ∧ ¬ R < d0) ∨
       ¬ List.Chain' (· < ·) (dates.map (dc R)))) ∧
    (∀ e, construct mk R dc dates vols u = .error e → e = .invalidInput) ∧
    (∀ e, construct mk R dc dates vols u = .error e →
      ∀ c2, construct mk R dc dates vols u ≠ .ok c2) := by
  obtain ⟨hsucc, hfail⟩ := construct_total mk R dc dates vols u hne
  refine ⟨⟨?_, hfail⟩, ?_, ?_⟩
  · intro herr
    by_contra hbad
    obtain ⟨c2, hok⟩ := hsucc hbad
    rw [hok] at herr
    cases herr
  · intro e he
    by_cases hbad : dates.length ≠ vols.length ∨
        (∃ d0, dates.head? = some d0 ∧ ¬ R < d0) ∨
        ¬ List.Chain' (· < ·) (dates.map (dc R))
    · have := hfail hbad
      rw [this] at he
      cases he
      rfl
    · obtain ⟨c2, hok⟩ := hsucc hbad
      rw [hok] at he
      cases he
  · intro e he c2 hok
    rw [hok] at he
    cases he

theorem construct_error_contract_witness :
    construct idInterp 0 yfAct365 [365, 365] [1, 1] "" =
      .error .invalidInput := by
  have h := construct_error_contract idInterp 0 yfAct365 [365, 365] [1, 1] ""
    (by simp)
  apply h.1.mpr
  right; right
  norm_num [yfAct365, List.chain'_cons]

/-- A day counter that violates the collaborator contract: it returns the
day difference minus 30, so a date strictly after the reference date can
map to year fraction 0. -/
def yfDegenerate (r d : ℤ) : ℚ := ((d - r : ℤ) : ℚ) - 30

def degenResult : Except Err Curve :=
  construct idInterp 0 yfDegenerate [30, 60] [1, 1] ""

/-- The curve the degenerate construction produces (times [0, 30]). -/
def degenCurve : Curve :=
  { referenceDate := 0, dayCounter := yfDegenerate, maxDate := 60,
    underlying := "", times := [0, 30], variances := [0, 30],
    varianceSurface := idInterp [0, 30] [0, 30] }

theorem degenTimes_eval : [30, 60].map (yfDegenerate 0) = [0, 30] := by
  norm_num [yfDegenerate]

theorem degenResult_eq : degenResult = .ok degenCurve := by
  have hbn := buildNodes_success (yfDegenerate 0) [30, 60] [1, 1] none
    (by norm_num)
    (by rw [degenTimes_eval]
        show List.Chain' (· < ·) ([0, 30] : List ℚ)
        norm_num [List.chain'_cons])
  rw [degenTimes_eval] at hbn
  simp [degenResult, construct, hbn, degenCurve, idInterp]

/-- C10: the divisions by times[0] (region A) and by times.back()
(region C) are safe — both divisors strictly positive — for every
successful construction, provided the day counter's year fraction is
strictly positive on dates strictly after the reference date.  The
assumption is genuinely additional: the constructor checks
`dates[0] > referenceDate` on calendar dates only and never checks the
computed `times[0] > 0`, and with a day counter violating the assumption
construction succeeds while times[0] = 0 (a zero divisor in region A). -/
theorem division_guard (mk : Interp) (R : ℤ) (dc : ℤ → ℤ → ℚ)
    (dates : List ℤ) (vols : List ℚ) (u : String) (c : Curve)
    (h : construct mk R dc dates vols u = .ok c)
    (hyf : ∀ d ∈ dates, R < d → 0 < dc R d) :
    (0 < c.times.head! ∧ 0 < c.times.getLast!) ∧
    (degenResult = .ok degenCurve ∧ degenCurve.times.head! = 0 ∧
      0 < degenCurve.times.getLast!) := by
  obtain ⟨d0, hd0, hmem, hR0, hth⟩ := construct_head_facts mk R dc dates vols u c h
  obtain ⟨-, -, hle⟩ := construct_times_shape mk R dc dates vols u c h
  have h0 : 0 < c.times.head! := by rw [hth]; exact hyf d0 hmem hR0
  refine ⟨⟨h0, lt_of_lt_of_le h0 hle⟩, degenResult_eq, ?_, ?_⟩
  · simp [degenCurve]
  · simp [degenCurve, List.getLast!, List.getLast]

theorem division_guard_witness :
    (0 < exCurve.times.head! ∧ 0 < exCurve.times.getLast!) ∧
    degenCurve.times.head! = 0 := by
  have h := division_guard idInterp 0 yfAct365 exDates exVols "" exCurve
    exResult_eq
    (by intro d hd hlt
        simp [exDates] at hd
        rcases hd with rfl | rfl | rfl <;> norm_num [yfAct365])
  exact ⟨h.1, h.2.2.1⟩

end QuantLib
